import Mathlib

/-!
Shallow embedding of the data pipeline of `src/main.py` (a Streamlit
dashboard over two small research datasets).  Pandas tables are embedded as
Lean lists of records, floats as exact rationals (with a decimal type for
the CSV round trip), file systems as association lists from file names to
parsed contents, and the fallible loaders as `Except String`-valued
functions whose error carries the user-visible message from `st.error`.
-/

namespace Dashboard

/-! ### Decimal numerals (the numeric cells of the environment CSV files) -/

/-- A decimal numeral `m / 10^e`, the form in which numeric cells travel
through `to_csv` / `read_csv`. -/
structure DecNum where
  m : Int
  e : Nat
deriving DecidableEq, Repr

/-- The rational value of a decimal cell, used by the aggregation layer. -/
def DecNum.toRat (d : DecNum) : ℚ := (d.m : ℚ) / (10 : ℚ) ^ d.e

/-! ### Unicode NFC canonicalization (`unicodedata.normalize("NFC", ·)`)

`src/main.py` line 46-47 delegates to the `unicodedata` library.  We embed
the Hangul canonical-composition fragment of NFC, which is the part
exercised by the Korean file names of this repository: the algorithmic
composition L+V -> LV syllable and LV syllable + T -> LVT syllable from the
Unicode standard. -/

def isHangulL (n : Nat) : Bool := 0x1100 ≤ n && n ≤ 0x1112

def isHangulV (n : Nat) : Bool := 0x1161 ≤ n && n ≤ 0x1175

def isHangulT (n : Nat) : Bool := 0x11A8 ≤ n && n ≤ 0x11C2

/-- An LV-only precomposed Hangul syllable (trailing-consonant index 0). -/
def isHangulLV (n : Nat) : Bool :=
  0xAC00 ≤ n && n ≤ 0xD7A3 && (n - 0xAC00) % 28 == 0

/-- Canonical pairwise Hangul composition: leading consonant + vowel gives a
syllable, LV syllable + trailing consonant completes it. -/
def hangulCompose2 (a b : Char) : Option Char :=
  if isHangulL a.toNat && isHangulV b.toNat then
    some (Char.ofNat (0xAC00 + ((a.toNat - 0x1100) * 21 + (b.toNat - 0x1161)) * 28))
  else if isHangulLV a.toNat && isHangulT b.toNat then
    some (Char.ofNat (a.toNat + (b.toNat - 0x11A7)))
  else none

/-- Left-to-right canonical composition pass, carrying the character under
the cursor: try to compose it with the next character; on success continue
with the composed syllable, otherwise emit it and move on. -/
def composeGo (a : Char) : List Char → List Char
  | [] => [a]
  | b :: rest =>
    match hangulCompose2 a b with
    | some c => composeGo c rest
    | none => a :: composeGo b rest

/-- Left-to-right canonical composition pass over a character sequence. -/
def composeChars : List Char → List Char
  | [] => []
  | a :: rest => composeGo a rest

/-- `normalize` from `src/main.py` line 46: NFC canonicalization of a
string (Hangul fragment). -/
def normalize (text : String) : String := String.mk (composeChars text.data)

/-! ### File resolver (`find_file_by_name`, `src/main.py` lines 49-54) -/

/-- One entry of a directory listing: a file name together with the parsed
content our embedding attaches to it. -/
structure DirEntry (α : Type) where
  name : String
  content : α
deriving DecidableEq, Repr

/-- `find_file_by_name`: scan the directory in listing order and return the
first file whose NFC-canonicalized name equals the canonicalized target;
`none` when no entry matches. -/
def find_file_by_name {α : Type} (directory : List (DirEntry α)) (target_name : String) :
    Option (DirEntry α) :=
  directory.find? (fun file => normalize file.name == normalize target_name)

/-! ### Fixed school -> EC lookup (`EC_INFO`, `src/main.py` lines 36-41) -/

/-- The fixed four-entry school -> target-EC table. -/
def EC_INFO : List (String × ℚ) :=
  [("송도고", 1.0), ("하늘고", 2.0), ("아라고", 4.0), ("동산고", 8.0)]

/-! ### Environment data loader (`load_environment_data`, lines 59-72) -/

/-- A raw row of one per-school environment CSV file
(columns `time, temperature, humidity, ph, ec`). -/
structure EnvRawRow where
  time : String
  temperature : DecNum
  humidity : DecNum
  ph : DecNum
  ec : DecNum
deriving DecidableEq, Repr

/-- An environment row after the loader appends the school column
(`df["학교"] = school`). -/
structure EnvRow where
  time : String
  temperature : DecNum
  humidity : DecNum
  ph : DecNum
  ec : DecNum
  school : String
deriving DecidableEq, Repr

/-- Append the school tag to a raw environment row. -/
def tagEnvRow (school : String) (r : EnvRawRow) : EnvRow :=
  ⟨r.time, r.temperature, r.humidity, r.ph, r.ec, school⟩

/-- The file name convention for a school's environment file. -/
def envFilename (school : String) : String := school ++ "_환경데이터.csv"

/-- The loop body of `load_environment_data` over the remaining schools:
resolve each school's file, abort with the `st.error` message (which names
the missing file) at the first failure. -/
def loadEnvironmentGo (dataDir : List (DirEntry (List EnvRawRow))) :
    List String → Except String (List (String × List EnvRow))
  | [] => .ok []
  | school :: rest =>
    match find_file_by_name dataDir (envFilename school) with
    | none => .error ("환경 데이터 파일을 찾을 수 없습니다: " ++ envFilename school)
    | some file =>
      match loadEnvironmentGo dataDir rest with
      | .error e => .error e
      | .ok m => .ok ((school, file.content.map (tagEnvRow school)) :: m)

/-- `load_environment_data`: for each of the four schools resolve and parse
its environment file and tag every row with the school; `Except.error`
models the `st.error` + `return None` path. -/
def load_environment_data (dataDir : List (DirEntry (List EnvRawRow))) :
    Except String (List (String × List EnvRow)) :=
  loadEnvironmentGo dataDir (EC_INFO.map Prod.fst)

/-! ### Growth data loader (`load_growth_data`, lines 74-90) -/

/-- A raw growth row of one sheet of the results spreadsheet: fresh weight
`생중량(g)`, leaf count `잎 수(장)`, shoot length `지상부 길이(mm)`. -/
structure GrowthRawRow where
  fresh_weight : ℚ
  leaf_count : ℚ
  shoot_length : ℚ
deriving DecidableEq, Repr

/-- A growth row after the loader appends the school and EC columns
(`df["학교"] = sheet; df["EC"] = EC_INFO.get(sheet, None)`). -/
structure GrowthRow where
  fresh_weight : ℚ
  leaf_count : ℚ
  shoot_length : ℚ
  school : String
  ec : Option ℚ
deriving DecidableEq, Repr

/-- A multi-sheet spreadsheet: sheet name -> raw rows, in sheet order. -/
def Workbook : Type := List (String × List GrowthRawRow)

/-- Tag a raw growth row with its sheet: school := sheet name and
EC := `EC_INFO.get(sheet, None)`, i.e. `none` for an unknown sheet. -/
def tagGrowthRow (sheet : String) (r : GrowthRawRow) : GrowthRow :=
  ⟨r.fresh_weight, r.leaf_count, r.shoot_length, sheet, List.lookup sheet EC_INFO⟩

/-- `load_growth_data`: resolve the fixed spreadsheet name, then tag every
sheet's rows with school and EC; `Except.error` models the `st.error` +
`return None` path. -/
def load_growth_data (dataDir : List (DirEntry Workbook)) :
    Except String (List (String × List GrowthRow)) :=
  match find_file_by_name dataDir "4개교_생육결과데이터.xlsx" with
  | none => .error "생육 결과 엑셀 파일을 찾을 수 없습니다."
  | some file =>
    .ok (file.content.map (fun sheet => (sheet.1, sheet.2.map (tagGrowthRow sheet.1))))

/-- The guard at `src/main.py` lines 95-96: the dashboard body renders only
when both loads succeeded (`st.stop()` otherwise). -/
def dashboard_renders (env : Except String (List (String × List EnvRow)))
    (growth : Except String (List (String × List GrowthRow))) : Bool :=
  env.toOption.isSome && growth.toOption.isSome

/-! ### Aggregation layer -/

/-- Insert into an ascending list, keeping it ascending. -/
def insertAsc {α : Type} (le : α → α → Bool) (a : α) : List α → List α
  | [] => [a]
  | b :: rest => if le a b then a :: b :: rest else b :: insertAsc le a rest

/-- Ascending insertion sort (the `sort=True` key ordering of `groupby`). -/
def sortAsc {α : Type} (le : α → α → Bool) (l : List α) : List α :=
  l.foldr (insertAsc le) []

/-- Mean of a list of rationals (pandas `mean`); only applied to nonempty
groups by the grouped aggregations below. -/
def listMean (l : List ℚ) : ℚ := l.sum / (l.length : ℚ)

/-- The sorted distinct EC keys of a growth table, as produced by
`groupby("EC")`: rows with an absent EC are dropped, the remaining keys
deduplicated and sorted ascending. -/
def ecGroupKeys (g : List GrowthRow) : List ℚ :=
  sortAsc (fun a b => decide (a ≤ b)) ((g.filterMap (fun r => r.ec)).dedup)

/-- The fresh weights of the rows in one EC group. -/
def groupWeights (g : List GrowthRow) (k : ℚ) : List ℚ :=
  g.filterMap (fun r => if r.ec = some k then some r.fresh_weight else none)

/-- `growth_all.groupby("EC")["생중량(g)"].mean()`: the series of
(EC, mean fresh weight) pairs in ascending EC order. -/
def mean_weight_by_ec (g : List GrowthRow) : List (ℚ × ℚ) :=
  (ecGroupKeys g).map (fun k => (k, listMean (groupWeights g k)))

/-- Scan step of pandas `Series.idxmax`: keep the first maximum seen,
replacing it only on a strictly larger value. -/
def idxmaxGo (bk bv : ℚ) : List (ℚ × ℚ) → ℚ
  | [] => bk
  | p :: rest => if bv < p.2 then idxmaxGo p.1 p.2 rest else idxmaxGo bk bv rest

/-- pandas `Series.idxmax` on a key-indexed series: the index label of the
first occurrence of the maximum value; `none` on an empty series (where the
library raises instead of returning a label). -/
def series_idxmax : List (ℚ × ℚ) → Option ℚ
  | [] => none
  | p :: rest => some (idxmaxGo p.1 p.2 rest)

/-- The overview tab's best EC (`src/main.py` lines 139-143):
`growth_all.groupby("EC")["생중량(g)"].mean().idxmax()`. -/
def best_ec_tab1 (g : List GrowthRow) : Option ℚ :=
  series_idxmax (mean_weight_by_ec g)

/-- Scan step of positional `idxmax` over a value column. -/
def argmaxGo (bi : Nat) (bv : ℚ) (i : Nat) : List ℚ → Nat
  | [] => bi
  | v :: rest => if bv < v then argmaxGo i v (i + 1) rest else argmaxGo bi bv (i + 1) rest

/-- Positional `idxmax` over a value column of a reset-index frame: the
position of the first occurrence of the maximum. -/
def values_idxmax : List ℚ → Option Nat
  | [] => none
  | v :: rest => some (argmaxGo 0 v 1 rest)

/-- The results tab's best EC (`src/main.py` lines 221-222):
`mean_weight.loc[mean_weight["생중량(g)"].idxmax(), "EC"]` over the
reset-index grouped-mean table. -/
def best_ec_tab3 (g : List GrowthRow) : Option ℚ :=
  match values_idxmax ((mean_weight_by_ec g).map Prod.snd) with
  | none => none
  | some i => ((mean_weight_by_ec g).get? i).map Prod.fst

/-- The overview's total record count (`src/main.py` lines 126-134): the sum
over the four fixed schools of `len(growth_data[s])`. -/
def total_plants (growth : List (String × List GrowthRow)) : Nat :=
  (EC_INFO.map (fun p => ((List.lookup p.1 growth).getD []).length)).sum

/-! ### Per-school environment means (`src/main.py` lines 157-158) -/

/-- Concatenation of the per-school environment tables (`pd.concat`). -/
def env_all (env : List (String × List EnvRow)) : List EnvRow :=
  (env.map Prod.snd).flatten

/-- The sorted distinct school keys of the environment table, as produced
by `groupby("학교")`. -/
def schoolKeys (rows : List EnvRow) : List String :=
  sortAsc (fun a b => decide (a ≤ b)) ((rows.map (fun r => r.school)).dedup)

/-- The per-school means of the numeric environment columns. -/
structure EnvMeans where
  temperature : ℚ
  humidity : ℚ
  ph : ℚ
  ec : ℚ
deriving DecidableEq, Repr

/-- The numeric-column means of one school group. -/
def schoolGroupMeans (rows : List EnvRow) (s : String) : EnvMeans :=
  let grp := rows.filter (fun r => r.school == s)
  ⟨listMean (grp.map (fun r => r.temperature.toRat)),
   listMean (grp.map (fun r => r.humidity.toRat)),
   listMean (grp.map (fun r => r.ph.toRat)),
   listMean (grp.map (fun r => r.ec.toRat))⟩

/-- `env_all.groupby("학교").mean(numeric_only=True)`: association list from
school (ascending) to the means of its numeric columns; a school with no
rows simply has no entry. -/
def env_mean (rows : List EnvRow) : List (String × EnvMeans) :=
  (schoolKeys rows).map (fun s => (s, schoolGroupMeans rows s))

/-! ### CSV export and re-parse (`env_all.to_csv`, `src/main.py` lines 204-212)

The export writes the concatenated environment table as delimited text
(header line, comma-separated fields, one `\n`-terminated line per row);
re-parsing is the inverse read (`pd.read_csv` on the exported text).
Numeric cells travel as decimal numerals. -/

/-- The character of a single decimal digit. -/
def digitChar (n : Nat) : Char := Char.ofNat (48 + n)

/-- Parse a single decimal digit character. -/
def charToDigit (c : Char) : Option Nat :=
  if 48 ≤ c.toNat && c.toNat ≤ 57 then some (c.toNat - 48) else none

/-- Little-endian base-10 digits of `n`, with explicit fuel (`fuel ≥ n`
suffices); `0` has no digits. -/
def natDigitsRev (fuel n : Nat) : List Nat :=
  match fuel with
  | 0 => []
  | fuel + 1 => if n = 0 then [] else n % 10 :: natDigitsRev fuel (n / 10)

/-- Little-endian base-10 digits of `n`. -/
def natDigits (n : Nat) : List Nat := natDigitsRev n n

/-- Value of a little-endian base-10 digit list. -/
def ofDigitsLE : List Nat → Nat
  | [] => 0
  | d :: rest => d + 10 * ofDigitsLE rest

/-- Render a decimal cell: optional sign, then the digits of `|m|` (padded
with leading zeros so that at least one digit precedes the point) with the
decimal point placed `e` digits from the right. -/
def DecNum.render (d : DecNum) : List Char :=
  let pad := natDigits d.m.natAbs ++
    List.replicate (d.e + 1 - (natDigits d.m.natAbs).length) 0
  let s := (pad.map digitChar).reverse
  (if d.m < 0 then ['-'] else []) ++
    (s.take (s.length - d.e) ++ '.' :: s.drop (s.length - d.e))

/-- Parse a big-endian digit-character list. -/
def parseDigits : List Char → Option (List Nat)
  | [] => some []
  | c :: rest =>
    match charToDigit c, parseDigits rest with
    | some d, some ds => some (d :: ds)
    | _, _ => none

/-- Split a character list at every occurrence of `sep` (the separator is
consumed; `n` separators yield `n + 1` chunks). -/
def splitOnChar (sep : Char) : List Char → List (List Char)
  | [] => [[]]
  | c :: rest =>
    if c = sep then [] :: splitOnChar sep rest
    else
      match splitOnChar sep rest with
      | [] => [[c]]
      | h :: t => (c :: h) :: t

/-- Parse an unsigned decimal numeral `digits.digits`. -/
def parseDecCore (l : List Char) : Option DecNum :=
  match splitOnChar '.' l with
  | [ip, fp] =>
    if ip = [] then none
    else
      match parseDigits ip, parseDigits fp with
      | some di, some df => some ⟨(ofDigitsLE ((di ++ df).reverse) : Nat), fp.length⟩
      | _, _ => none
  | _ => none

/-- Parse a decimal numeral with optional leading minus sign. -/
def parseDec (l : List Char) : Option DecNum :=
  match l with
  | [] => none
  | c :: rest =>
    if c = '-' then (parseDecCore rest).map (fun d => ⟨-d.m, d.e⟩)
    else parseDecCore (c :: rest)

/-- The header line of the exported environment CSV: the five source
columns plus the appended school column. -/
def envHeader : List Char := "time,temperature,humidity,ph,ec,학교".data

/-- One exported CSV line of an environment row. -/
def renderEnvRow (r : EnvRow) : List Char :=
  r.time.data ++ ',' :: (r.temperature.render ++ ',' :: (r.humidity.render ++
    ',' :: (r.ph.render ++ ',' :: (r.ec.render ++ ',' :: r.school.data))))

/-- Terminate every line with `\n` and concatenate. -/
def joinLines (ls : List (List Char)) : List Char :=
  (ls.map (fun l => l ++ ['\n'])).flatten

/-- `env_all.to_csv(index=False)`: header line then one line per row. -/
def env_to_csv (rows : List EnvRow) : List Char :=
  joinLines (envHeader :: rows.map renderEnvRow)

/-- Parse one CSV line back into an environment row. -/
def parseEnvRow (l : List Char) : Option EnvRow :=
  match splitOnChar ',' l with
  | [t, a, b, c, d, s] =>
    match parseDec a, parseDec b, parseDec c, parseDec d with
    | some ta, some hb, some pc, some ed =>
      some ⟨String.mk t, ta, hb, pc, ed, String.mk s⟩
    | _, _, _, _ => none
  | _ => none

/-- Parse the newline-split chunks after the header: every chunk but the
final empty one (left of the trailing newline) is a row line. -/
def parseRows : List (List Char) → Option (List EnvRow)
  | [] => none
  | line :: rest =>
    if line = [] then (if rest = [] then some [] else none)
    else
      match parseEnvRow line, parseRows rest with
      | some r, some rs => some (r :: rs)
      | _, _ => none

/-- Re-parse an exported environment CSV text (`pd.read_csv`): check the
header line, then parse every row line. -/
def parse_env_csv (l : List Char) : Option (List EnvRow) :=
  match splitOnChar '\n' l with
  | [] => none
  | header :: rest => if header = envHeader then parseRows rest else none

/-! ### Once-per-process memoization (`@st.cache_data`, lines 59 and 74) -/

/-- The cache cell behind one `@st.cache_data`-decorated loader. -/
structure CacheState (α : Type) where
  cached : Option α
deriving DecidableEq, Repr

/-- Modelled from the spec: the once-per-process memoization that the
`st.cache_data` decorator (library code, not part of this repository) wraps
around a loader — on the first call compute and store the result, on every
later call return the stored result without recomputing.  The `Nat`
component counts how many times the underlying computation ran during the
call. -/
def cache_data_call {α : Type} (compute : Unit → α) (s : CacheState α) :
    α × CacheState α × Nat :=
  match s.cached with
  | some v => (v, s, 0)
  | none =>
    let v := compute ()
    (v, ⟨some v⟩, 1)

/-! ## Theorems -/

/-- `find?` characterization: a found element satisfies the predicate and is
the first such element in list order. -/
theorem find_first_aux {α : Type} (p : α → Bool) :
    ∀ (l : List α) (e : α), l.find? p = some e →
      p e = true ∧ ∃ i, l.get? i = some e ∧
        ∀ j, j < i → ∀ x, l.get? j = some x → p x = false := by
  intro l
  induction l with
  | nil => intro e h; simp [List.find?] at h
  | cons a rest ih =>
    intro e h
    cases hpa : p a with
    | true =>
      simp only [List.find?, hpa] at h
      cases h
      exact ⟨hpa, 0, rfl, fun j hj => absurd hj (Nat.not_lt_zero j)⟩
    | false =>
      simp only [List.find?, hpa] at h
      obtain ⟨hpe, i, hg, hfirst⟩ := ih e h
      refine ⟨hpe, i + 1, by simpa using hg, fun j hj x hx => ?_⟩
      cases j with
      | zero => simp only [List.get?] at hx; cases hx; exact hpa
      | succ j => exact hfirst j (by omega) x (by simpa using hx)

/-- C1: for the growth rows `{EC:1.0,w:2}, {EC:1.0,w:4}, {EC:2.0,w:10}` the
grouped mean fresh weight by EC is `{1.0: 3.0, 2.0: 10.0}` and the derived
best EC (in both of the program's computations) is `2.0`. -/
theorem growth_aggregation_example :
    mean_weight_by_ec
        [⟨2, 0, 0, "송도고", some 1⟩, ⟨4, 0, 0, "송도고", some 1⟩,
         ⟨10, 0, 0, "하늘고", some 2⟩] = [(1, 3), (2, 10)] ∧
    best_ec_tab1
        [⟨2, 0, 0, "송도고", some 1⟩, ⟨4, 0, 0, "송도고", some 1⟩,
         ⟨10, 0, 0, "하늘고", some 2⟩] = some 2 ∧
    best_ec_tab3
        [⟨2, 0, 0, "송도고", some 1⟩, ⟨4, 0, 0, "송도고", some 1⟩,
         ⟨10, 0, 0, "하늘고", some 2⟩] = some 2 := by
  refine ⟨?_, ?_, ?_⟩ <;>
    norm_num [mean_weight_by_ec, best_ec_tab1, best_ec_tab3, series_idxmax,
      values_idxmax, idxmaxGo, argmaxGo, ecGroupKeys, groupWeights, listMean,
      sortAsc, insertAsc, List.filterMap]

/-- C2: the file resolver returns `none` exactly when no directory entry's
NFC-canonicalized name equals the canonicalized target, and a returned
entry matches under canonicalization and is the first such entry in
directory order. -/
theorem find_file_by_name_spec {α : Type} (directory : List (DirEntry α))
    (target_name : String) :
    (find_file_by_name directory target_name = none ↔
      ∀ e ∈ directory, normalize e.name ≠ normalize target_name) ∧
    ∀ e, find_file_by_name directory target_name = some e →
      normalize e.name = normalize target_name ∧
      ∃ i, directory.get? i = some e ∧
        ∀ j, j < i → ∀ x, directory.get? j = some x →
          normalize x.name ≠ normalize target_name := by
  constructor
  · rw [find_file_by_name, List.find?_eq_none]
    constructor
    · intro h e he heq
      exact h e he (by simpa using heq)
    · intro h e he
      simpa using h e he
  · intro e h
    obtain ⟨hpe, i, hg, hfirst⟩ := find_first_aux _ directory e h
    refine ⟨by simpa using hpe, i, hg, fun j hj x hx heq => ?_⟩
    have := hfirst j hj x hx
    simp [heq] at this

/-- C2 witness: a file stored under the NFD-decomposed form of
`송도고_환경데이터.csv` is found when the composed (NFC) name is requested. -/
theorem find_file_by_name_spec_witness :
    find_file_by_name
        [⟨"송도고_환경데이터.csv", (0 : Nat)⟩]
        "송도고_환경데이터.csv"
      = some ⟨"송도고_환경데이터.csv", (0 : Nat)⟩ ∧
    normalize "송도고_환경데이터.csv"
      = normalize "송도고_환경데이터.csv" :=
  ⟨by decide,
   ((find_file_by_name_spec
        [⟨"송도고_환경데이터.csv", (0 : Nat)⟩]
        "송도고_환경데이터.csv").2
      ⟨"송도고_환경데이터.csv", (0 : Nat)⟩
      (by decide)).1⟩

/-- The positional `idxmax` of the results tab lands on the entry whose key
the overview tab's series `idxmax` returns. -/
theorem argmax_agree :
    ∀ (rest full : List (ℚ × ℚ)) (bi i : Nat) (bk bv : ℚ),
      full.get? bi = some (bk, bv) →
      (∀ j, full.get? (i + j) = rest.get? j) →
      ∃ v, full.get? (argmaxGo bi bv i (rest.map Prod.snd))
          = some (idxmaxGo bk bv rest, v) := by
  intro rest
  induction rest with
  | nil => intro full bi i bk bv hb _; exact ⟨bv, by simpa [argmaxGo, idxmaxGo] using hb⟩
  | cons p rest ih =>
    intro full bi i bk bv hb hshift
    obtain ⟨k2, v2⟩ := p
    have hcur : full.get? i = some (k2, v2) := by simpa using hshift 0
    have hshift2 : ∀ j, full.get? (i + 1 + j) = rest.get? j := by
      intro j
      have := hshift (j + 1)
      simpa [Nat.add_assoc, Nat.add_comm 1 j] using this
    by_cases hlt : bv < v2
    · simpa [argmaxGo, idxmaxGo, hlt] using ih full i (i + 1) k2 v2 hcur hshift2
    · simpa [argmaxGo, idxmaxGo, hlt] using ih full bi (i + 1) bk bv hb hshift2

/-- The two best-EC computations agree on every growth table. -/
theorem best_ec_agree (g : List GrowthRow) : best_ec_tab3 g = best_ec_tab1 g := by
  rw [best_ec_tab3, best_ec_tab1]
  cases hmw : mean_weight_by_ec g with
  | nil => simp [values_idxmax, series_idxmax]
  | cons p rest =>
    obtain ⟨k, v⟩ := p
    have h0 : ((k, v) :: rest).get? 0 = some (k, v) := rfl
    have hshift : ∀ j, ((k, v) :: rest).get? (1 + j) = rest.get? j := by
      intro j; simp [Nat.add_comm 1 j]
    obtain ⟨w, hw⟩ := argmax_agree rest ((k, v) :: rest) 0 1 k v h0 hshift
    simp only [values_idxmax, series_idxmax, List.map_cons]
    rw [hw]
    rfl

/-- C10: the overview tab's best EC (series `idxmax` on the grouped means)
and the results tab's best EC (positional `idxmax` on the reset-index
grouped-mean table followed by a row lookup) are the same value for every
growth table. -/
theorem best_ec_tab3_eq_tab1 (g : List GrowthRow) :
    best_ec_tab3 g = best_ec_tab1 g :=
  best_ec_agree g

/-- C7: with the `st.cache_data` memoization, calling a loader twice
returns equal data, the state after the second call is unchanged, and the
underlying load runs exactly once (on the first call, not the second). -/
theorem loader_memoization (envDir : List (DirEntry (List EnvRawRow)))
    (growthDir : List (DirEntry Workbook)) :
    ((cache_data_call (fun _ => load_environment_data envDir) ⟨none⟩).1
        = load_environment_data envDir ∧
      (cache_data_call (fun _ => load_environment_data envDir)
          (cache_data_call (fun _ => load_environment_data envDir) ⟨none⟩).2.1).1
        = (cache_data_call (fun _ => load_environment_data envDir) ⟨none⟩).1 ∧
      (cache_data_call (fun _ => load_environment_data envDir)
          (cache_data_call (fun _ => load_environment_data envDir) ⟨none⟩).2.1).2.1
        = (cache_data_call (fun _ => load_environment_data envDir) ⟨none⟩).2.1 ∧
      (cache_data_call (fun _ => load_environment_data envDir) ⟨none⟩).2.2 = 1 ∧
      (cache_data_call (fun _ => load_environment_data envDir)
          (cache_data_call (fun _ => load_environment_data envDir) ⟨none⟩).2.1).2.2
        = 0) ∧
    ((cache_data_call (fun _ => load_growth_data growthDir) ⟨none⟩).1
        = load_growth_data growthDir ∧
      (cache_data_call (fun _ => load_growth_data growthDir)
          (cache_data_call (fun _ => load_growth_data growthDir) ⟨none⟩).2.1).1
        = (cache_data_call (fun _ => load_growth_data growthDir) ⟨none⟩).1 ∧
      (cache_data_call (fun _ => load_growth_data growthDir)
          (cache_data_call (fun _ => load_growth_data growthDir) ⟨none⟩).2.1).2.1
        = (cache_data_call (fun _ => load_growth_data growthDir) ⟨none⟩).2.1 ∧
      (cache_data_call (fun _ => load_growth_data growthDir) ⟨none⟩).2.2 = 1 ∧
      (cache_data_call (fun _ => load_growth_data growthDir)
          (cache_data_call (fun _ => load_growth_data growthDir) ⟨none⟩).2.1).2.2
        = 0) :=
  ⟨⟨rfl, rfl, rfl, rfl, rfl⟩, ⟨rfl, rfl, rfl, rfl, rfl⟩⟩

/-! ### Association-list and sort helper lemmas -/

theorem lookup_eq_none_keys {β : Type} (a : String) (l : List (String × β))
    (h : a ∉ l.map Prod.fst) : List.lookup a l = none := by
  induction l with
  | nil => rfl
  | cons p rest ih =>
    obtain ⟨k, b⟩ := p
    simp only [List.map_cons, List.mem_cons, not_or] at h
    simp only [List.lookup]
    rw [show (a == k) = false from beq_eq_false_iff_ne.mpr h.1]
    exact ih h.2

theorem lookup_eq_some_of_nodup {β : Type} (a : String) (b : β)
    (l : List (String × β)) (hmem : (a, b) ∈ l)
    (hnd : (l.map Prod.fst).Nodup) : List.lookup a l = some b := by
  induction l with
  | nil => cases hmem
  | cons p rest ih =>
    obtain ⟨k, v⟩ := p
    simp only [List.map_cons, List.nodup_cons] at hnd
    cases List.mem_cons.mp hmem with
    | inl h =>
      cases h
      simp [List.lookup]
    | inr h =>
      have hak : a ≠ k := by
        intro heq
        subst heq
        exact hnd.1 (List.mem_map.mpr ⟨(a, b), h, rfl⟩)
      simp only [List.lookup]
      rw [show (a == k) = false from beq_eq_false_iff_ne.mpr hak]
      exact ih h hnd.2

theorem mem_insertAsc {α : Type} (le : α → α → Bool) (a b : α) (l : List α) :
    b ∈ insertAsc le a l ↔ b = a ∨ b ∈ l := by
  induction l with
  | nil => simp [insertAsc]
  | cons c rest ih =>
    by_cases hle : le a c
    · simp [insertAsc, hle]
    · simp only [insertAsc, hle, Bool.false_eq_true, if_false, List.mem_cons, ih]
      tauto

theorem mem_sortAsc {α : Type} (le : α → α → Bool) (b : α) (l : List α) :
    b ∈ sortAsc le l ↔ b ∈ l := by
  induction l with
  | nil => simp [sortAsc]
  | cons c rest ih =>
    show b ∈ insertAsc le c (sortAsc le rest) ↔ _
    rw [mem_insertAsc]
    simp [ih]

/-! ### `idxmax` specification (maximal value, first occurrence) -/

theorem idxmaxGo_spec :
    ∀ (rest full : List (ℚ × ℚ)) (bi i : Nat) (bk bv : ℚ),
      full.get? bi = some (bk, bv) →
      bi < i →
      (∀ j x, j < i → full.get? j = some x → x.2 ≤ bv) →
      (∀ j x, j < bi → full.get? j = some x → x.2 < bv) →
      (∀ j, full.get? (i + j) = rest.get? j) →
      ∃ ri rv, full.get? ri = some (idxmaxGo bk bv rest, rv) ∧
        (∀ x ∈ full, x.2 ≤ rv) ∧
        (∀ j x, j < ri → full.get? j = some x → x.2 < rv) := by
  intro rest
  induction rest with
  | nil =>
    intro full bi i bk bv hb hbi hle hlt hshift
    refine ⟨bi, bv, by simpa [idxmaxGo] using hb, ?_, hlt⟩
    intro x hx
    obtain ⟨j, hj⟩ := List.mem_iff_get?.mp hx
    have hlen : full.length ≤ i := by
      have h0 := hshift 0
      simp only [List.get?] at h0
      exact List.get?_eq_none.mp (by simpa using h0)
    have hjlen : j < full.length := by
      by_contra hcon
      rw [List.get?_eq_none.mpr (by omega)] at hj
      cases hj
    exact hle j x (by omega) hj
  | cons p rest ih =>
    intro full bi i bk bv hb hbi hle hlt hshift
    obtain ⟨k2, v2⟩ := p
    have hcur : full.get? i = some (k2, v2) := by simpa using hshift 0
    have hshift2 : ∀ j, full.get? (i + 1 + j) = rest.get? j := by
      intro j
      have := hshift (j + 1)
      simpa [Nat.add_assoc, Nat.add_comm 1 j] using this
    by_cases hv : bv < v2
    · have hle2 : ∀ j x, j < i + 1 → full.get? j = some x → x.2 ≤ v2 := by
        intro j x hj hx
        rcases Nat.lt_or_ge j i with hji | hji
        · exact le_of_lt (lt_of_le_of_lt (hle j x hji hx) hv)
        · have : j = i := by omega
          subst this
          rw [hcur] at hx
          cases hx
          exact le_refl _
      have hlt2 : ∀ j x, j < i → full.get? j = some x → x.2 < v2 := by
        intro j x hj hx
        exact lt_of_le_of_lt (hle j x hj hx) hv
      simpa [idxmaxGo, hv] using ih full i (i + 1) k2 v2 hcur (by omega) hle2 hlt2 hshift2
    · have hle2 : ∀ j x, j < i + 1 → full.get? j = some x → x.2 ≤ bv := by
        intro j x hj hx
        rcases Nat.lt_or_ge j i with hji | hji
        · exact hle j x hji hx
        · have : j = i := by omega
          subst this
          rw [hcur] at hx
          cases hx
          exact not_lt.mp hv
      simpa [idxmaxGo, hv] using ih full bi (i + 1) bk bv hb (by omega) hle2 hlt hshift2

theorem series_idxmax_spec (l : List (ℚ × ℚ)) (h : l ≠ []) :
    ∃ b ri rv, series_idxmax l = some b ∧ l.get? ri = some (b, rv) ∧
      (∀ x ∈ l, x.2 ≤ rv) ∧
      (∀ j x, j < ri → l.get? j = some x → x.2 < rv) := by
  cases l with
  | nil => exact absurd rfl h
  | cons p rest =>
    obtain ⟨k, v⟩ := p
    have h0 : ((k, v) :: rest).get? 0 = some (k, v) := rfl
    have hle : ∀ j x, j < 1 → ((k, v) :: rest).get? j = some x → x.2 ≤ v := by
      intro j x hj hx
      have : j = 0 := by omega
      subst this
      cases hx
      exact le_refl _
    have hlt : ∀ j x, j < 0 → ((k, v) :: rest).get? j = some x → x.2 < v :=
      fun j x hj => absurd hj (Nat.not_lt_zero j)
    have hshift : ∀ j, ((k, v) :: rest).get? (1 + j) = rest.get? j := by
      intro j; simp [Nat.add_comm 1 j]
    obtain ⟨ri, rv, hget, hmax, hfirst⟩ :=
      idxmaxGo_spec rest ((k, v) :: rest) 0 1 k v h0 (by omega) hle hlt hshift
    exact ⟨idxmaxGo k v rest, ri, rv, rfl, hget, hmax, hfirst⟩

/-! ### Claims C3, C4, C5, C6, C9 -/

/-- C3: in a successfully loaded growth table, every row of every sheet is
tagged with the sheet as its school and with the fixed `EC_INFO` lookup
value for that sheet as its EC; rows of a sheet outside the fixed four
schools carry an absent (`none`) EC instead of causing an error. -/
theorem load_growth_data_ec_tagging
    (dataDir : List (DirEntry Workbook))
    (growth : List (String × List GrowthRow))
    (h : load_growth_data dataDir = .ok growth) :
    ∀ st ∈ growth, ∀ row ∈ st.2,
      row.school = st.1 ∧
      row.ec = List.lookup st.1 EC_INFO ∧
      (st.1 ∉ EC_INFO.map Prod.fst → row.ec = none) ∧
      ∀ v, (st.1, v) ∈ EC_INFO → row.ec = some v := by
  rw [load_growth_data] at h
  cases hf : find_file_by_name dataDir "4개교_생육결과데이터.xlsx" with
  | none => rw [hf] at h; cases h
  | some file =>
    rw [hf] at h
    simp only [Except.ok.injEq] at h
    subst h
    intro st hst row hrow
    obtain ⟨sheet, hsheet, rfl⟩ := List.mem_map.mp hst
    obtain ⟨raw, hraw, rfl⟩ := List.mem_map.mp hrow
    refine ⟨rfl, rfl, fun hnot => lookup_eq_none_keys _ _ hnot, fun v hv =>
      lookup_eq_some_of_nodup _ _ _ hv (by decide)⟩

/-- C3 witness: a sheet named `송도고` tags its rows with EC
`EC_INFO["송도고"] = 1.0`. -/
theorem load_growth_data_ec_tagging_witness :
    (tagGrowthRow "송도고" ⟨2, 3, 4⟩).ec = List.lookup "송도고" EC_INFO ∧
    List.lookup "송도고" EC_INFO = some 1 :=
  ⟨(load_growth_data_ec_tagging
      [⟨"4개교_생육결과데이터.xlsx", [("송도고", [⟨2, 3, 4⟩])]⟩]
      [("송도고", [tagGrowthRow "송도고" ⟨2, 3, 4⟩])] rfl
      ("송도고", [tagGrowthRow "송도고" ⟨2, 3, 4⟩]) (by simp)
      (tagGrowthRow "송도고" ⟨2, 3, 4⟩) (by simp)).2.1,
   (by norm_num [EC_INFO, List.lookup])⟩

/-- The environment-loading loop aborts with the error message naming the
first unresolvable school file. -/
theorem loadEnvGo_missing (dataDir : List (DirEntry (List EnvRawRow))) :
    ∀ schools : List String,
      (∃ s ∈ schools, find_file_by_name dataDir (envFilename s) = none) →
      ∃ s ∈ schools, find_file_by_name dataDir (envFilename s) = none ∧
        loadEnvironmentGo dataDir schools
          = .error ("환경 데이터 파일을 찾을 수 없습니다: " ++ envFilename s) := by
  intro schools
  induction schools with
  | nil => rintro ⟨s, hs, _⟩; cases hs
  | cons c rest ih =>
    rintro ⟨s, hs, hnone⟩
    by_cases hc : find_file_by_name dataDir (envFilename c) = none
    · exact ⟨c, List.mem_cons_self c rest, hc, by simp [loadEnvironmentGo, hc]⟩
    · have hs' : s ∈ rest := by
        cases List.mem_cons.mp hs with
        | inl heq => subst heq; exact absurd hnone hc
        | inr hmem => exact hmem
      obtain ⟨s2, hs2, hnone2, herr⟩ := ih ⟨s, hs', hnone⟩
      refine ⟨s2, List.mem_cons_of_mem c hs2, hnone2, ?_⟩
      cases hfile : find_file_by_name dataDir (envFilename c) with
      | none => exact absurd hfile hc
      | some file => simp [loadEnvironmentGo, hfile, herr]

/-- C4: if any of the four per-school environment files cannot be resolved,
the environment loader aborts with an error naming a missing file, never
returns a (partial) mapping, and the dashboard guard renders nothing. -/
theorem load_environment_data_missing_aborts
    (dataDir : List (DirEntry (List EnvRawRow)))
    (h : ∃ s ∈ EC_INFO.map Prod.fst,
      find_file_by_name dataDir (envFilename s) = none) :
    (∃ s ∈ EC_INFO.map Prod.fst,
        find_file_by_name dataDir (envFilename s) = none ∧
        load_environment_data dataDir
          = .error ("환경 데이터 파일을 찾을 수 없습니다: " ++ envFilename s)) ∧
    (∀ m, load_environment_data dataDir ≠ .ok m) ∧
    ∀ growthResult,
      dashboard_renders (load_environment_data dataDir) growthResult = false := by
  obtain ⟨s, hs, hnone, herr⟩ := loadEnvGo_missing dataDir (EC_INFO.map Prod.fst) h
  have herr2 : load_environment_data dataDir
      = .error ("환경 데이터 파일을 찾을 수 없습니다: " ++ envFilename s) := herr
  refine ⟨⟨s, hs, hnone, herr2⟩, ?_, ?_⟩
  · intro m hm
    rw [herr2] at hm
    cases hm
  · intro growthResult
    rw [dashboard_renders, herr2]
    rfl

/-- C4 witness: on an empty data directory the loader reports the first
school's file as missing and the dashboard renders nothing. -/
theorem load_environment_data_missing_aborts_witness :
    dashboard_renders (load_environment_data ([] : List (DirEntry (List EnvRawRow))))
        (Except.error "x") = false ∧
    load_environment_data ([] : List (DirEntry (List EnvRawRow)))
      = .error ("환경 데이터 파일을 찾을 수 없습니다: " ++ envFilename "송도고") :=
  ⟨(load_environment_data_missing_aborts [] (by decide)).2.2 (Except.error "x"), rfl⟩

/-- C5 counterexample: a non-empty growth table whose rows all carry an
absent EC has no EC group at all, so no best EC is produced (the program's
`idxmax` raises on the empty grouped series); the claim fails for arbitrary
non-empty growth tables. -/
theorem best_ec_nonempty_counterexample :
    ¬ ∀ g : List GrowthRow, g ≠ [] → ∃ b, best_ec_tab1 g = some b := by
  intro h
  obtain ⟨b, hb⟩ := h [⟨1, 1, 1, "신규고", none⟩] (by simp)
  simp [best_ec_tab1, mean_weight_by_ec, ecGroupKeys, sortAsc,
    series_idxmax, List.filterMap] at hb

/-- C5 (amended): for every growth table with at least one row whose EC is
present, both best-EC computations return an EC level whose group mean
fresh weight is maximal among all EC groups, and on ties the first group in
the natural (ascending-key) group ordering. -/
theorem best_ec_maximal (g : List GrowthRow)
    (h : ∃ r ∈ g, ∃ e, r.ec = some e) :
    ∃ b mb i, best_ec_tab1 g = some b ∧ best_ec_tab3 g = some b ∧
      (mean_weight_by_ec g).get? i = some (b, mb) ∧
      (∀ p ∈ mean_weight_by_ec g, p.2 ≤ mb) ∧
      ∀ j p, j < i → (mean_weight_by_ec g).get? j = some p → p.2 < mb := by
  obtain ⟨r, hr, e, he⟩ := h
  have hkey : e ∈ ecGroupKeys g := by
    rw [ecGroupKeys, mem_sortAsc, List.mem_dedup]
    exact List.mem_filterMap.mpr ⟨r, hr, he⟩
  have hne : mean_weight_by_ec g ≠ [] := by
    rw [mean_weight_by_ec]
    intro hnil
    rw [List.map_eq_nil_iff] at hnil
    rw [hnil] at hkey
    cases hkey
  obtain ⟨b, ri, rv, hser, hget, hmax, hfirst⟩ :=
    series_idxmax_spec (mean_weight_by_ec g) hne
  exact ⟨b, rv, ri, hser, by rw [best_ec_agree]; exact hser, hget, hmax,
    fun j p hj hp => hfirst j p hj hp⟩

/-- C5 witness: on a table with a tied maximal mean (EC 1.0 and EC 2.0 both
average 5) the returned best EC is the first group key in ascending order. -/
theorem best_ec_maximal_witness :
    (∃ r ∈ [(⟨5, 0, 0, "하늘고", some 2⟩ : GrowthRow), ⟨5, 0, 0, "송도고", some 1⟩],
      ∃ e, r.ec = some e) ∧
    ∃ b mb i,
      best_ec_tab1 [(⟨5, 0, 0, "하늘고", some 2⟩ : GrowthRow), ⟨5, 0, 0, "송도고", some 1⟩]
        = some b ∧
      best_ec_tab3 [(⟨5, 0, 0, "하늘고", some 2⟩ : GrowthRow), ⟨5, 0, 0, "송도고", some 1⟩]
        = some b ∧
      (mean_weight_by_ec
          [(⟨5, 0, 0, "하늘고", some 2⟩ : GrowthRow), ⟨5, 0, 0, "송도고", some 1⟩]).get? i
        = some (b, mb) ∧
      (∀ p ∈ mean_weight_by_ec
          [(⟨5, 0, 0, "하늘고", some 2⟩ : GrowthRow), ⟨5, 0, 0, "송도고", some 1⟩],
        p.2 ≤ mb) ∧
      ∀ j p, j < i →
        (mean_weight_by_ec
            [(⟨5, 0, 0, "하늘고", some 2⟩ : GrowthRow), ⟨5, 0, 0, "송도고", some 1⟩]).get? j
          = some p → p.2 < mb :=
  ⟨⟨⟨5, 0, 0, "하늘고", some 2⟩, by simp, 2, rfl⟩,
   best_ec_maximal _ ⟨⟨5, 0, 0, "하늘고", some 2⟩, by simp, 2, rfl⟩⟩

/-- Summing `len(growth_data[s])` over distinct keys equals summing the
table lengths over the mapping's entries. -/
theorem sum_lookup_lengths (l : List (String × List GrowthRow))
    (hnd : (l.map Prod.fst).Nodup) :
    ((l.map Prod.fst).map (fun s => ((List.lookup s l).getD []).length)).sum
      = (l.map (fun p => p.2.length)).sum := by
  induction l with
  | nil => rfl
  | cons p rest ih =>
    obtain ⟨k, t⟩ := p
    simp only [List.map_cons, List.nodup_cons] at hnd ⊢
    rw [List.sum_cons, List.sum_cons]
    have hk : List.lookup k ((k, t) :: rest) = some t := by simp [List.lookup]
    have hrest : (rest.map Prod.fst).map
          (fun s => ((List.lookup s ((k, t) :: rest)).getD []).length)
        = (rest.map Prod.fst).map
          (fun s => ((List.lookup s rest).getD []).length) := by
      apply List.map_congr_left
      intro s hsmem
      have hsk : ¬ (s == k) = true := by
        simp only [beq_iff_eq]
        intro heq
        subst heq
        exact hnd.1 hsmem
      simp [List.lookup, hsk]
    rw [hk, hrest, ih hnd.2]
    rfl

/-- C6: when the growth data loads successfully and is keyed by exactly the
four fixed schools, the overview's displayed total record count equals the
sum over the schools of the number of growth rows in each school's table. -/
theorem total_plants_eq_sum (dataDir : List (DirEntry Workbook))
    (growth : List (String × List GrowthRow))
    (_hload : load_growth_data dataDir = .ok growth)
    (hkeys : (growth.map Prod.fst).Perm (EC_INFO.map Prod.fst)) :
    total_plants growth = (growth.map (fun p => p.2.length)).sum := by
  have hnd : (growth.map Prod.fst).Nodup :=
    hkeys.symm.nodup (by decide)
  rw [total_plants]
  have hcomp : EC_INFO.map (fun p => ((List.lookup p.1 growth).getD []).length)
      = (EC_INFO.map Prod.fst).map
        (fun s => ((List.lookup s growth).getD []).length) := by
    rw [List.map_map]
    rfl
  rw [hcomp]
  rw [(hkeys.symm.map (fun s => ((List.lookup s growth).getD []).length)).sum_eq]
  exact sum_lookup_lengths growth hnd

/-- C6 witness: a four-sheet workbook with 1, 2, 0, 0 rows per school gives
a displayed total of 3, the sum of the per-school row counts. -/
theorem total_plants_eq_sum_witness :
    total_plants
        [("송도고", [tagGrowthRow "송도고" ⟨2, 3, 4⟩]),
         ("하늘고", [tagGrowthRow "하늘고" ⟨5, 6, 7⟩, tagGrowthRow "하늘고" ⟨8, 9, 10⟩]),
         ("아라고", []), ("동산고", [])]
      = ([("송도고", [tagGrowthRow "송도고" ⟨2, 3, 4⟩]),
          ("하늘고", [tagGrowthRow "하늘고" ⟨5, 6, 7⟩, tagGrowthRow "하늘고" ⟨8, 9, 10⟩]),
          ("아라고", []), ("동산고", [])].map (fun p => p.2.length)).sum ∧
    total_plants
        [("송도고", [tagGrowthRow "송도고" ⟨2, 3, 4⟩]),
         ("하늘고", [tagGrowthRow "하늘고" ⟨5, 6, 7⟩, tagGrowthRow "하늘고" ⟨8, 9, 10⟩]),
         ("아라고", []), ("동산고", [])]
      = 3 :=
  ⟨total_plants_eq_sum
      [⟨"4개교_생육결과데이터.xlsx",
        [("송도고", [⟨2, 3, 4⟩]), ("하늘고", [⟨5, 6, 7⟩, ⟨8, 9, 10⟩]),
         ("아라고", []), ("동산고", [])]⟩]
      _ rfl (List.Perm.refl _),
   by decide⟩

/-- C9: a school with zero environment rows has no entry in the per-school
mean table: the lookup is a well-defined "missing" result, distinguishable
from any real mean value (in particular from zero), not a crash. -/
theorem env_mean_empty_group (rows : List EnvRow) (s : String)
    (h : ∀ r ∈ rows, r.school ≠ s) :
    List.lookup s (env_mean rows) = none ∧
    ∀ m : EnvMeans, List.lookup s (env_mean rows) ≠ some m := by
  have hnotmem : s ∉ (env_mean rows).map Prod.fst := by
    rw [env_mean, List.map_map]
    have hid : (Prod.fst ∘ fun k => (k, schoolGroupMeans rows k)) = id := rfl
    rw [hid, List.map_id]
    intro hmem
    rw [schoolKeys, mem_sortAsc, List.mem_dedup] at hmem
    obtain ⟨r, hr, hrs⟩ := List.mem_map.mp hmem
    exact h r hr hrs
  have h1 := lookup_eq_none_keys s _ hnotmem
  refine ⟨h1, fun m hm => ?_⟩
  rw [h1] at hm
  cases hm

/-- C9 witness: with environment rows only for `송도고`, the mean lookup for
`하늘고` is the missing value. -/
theorem env_mean_empty_group_witness :
    List.lookup "하늘고"
        (env_mean [⟨"t0", ⟨215, 1⟩, ⟨60, 1⟩, ⟨65, 1⟩, ⟨12, 1⟩, "송도고"⟩]) = none :=
  (env_mean_empty_group [⟨"t0", ⟨215, 1⟩, ⟨60, 1⟩, ⟨65, 1⟩, ⟨12, 1⟩, "송도고"⟩]
    "하늘고" (by decide)).1

/-! ### CSV round trip (C8) -/

theorem digitChar_props (k : Nat) (h : k < 10) :
    charToDigit (digitChar k) = some k ∧ digitChar k ≠ ',' ∧ digitChar k ≠ '.' ∧
    digitChar k ≠ '\n' ∧ digitChar k ≠ '-' := by
  interval_cases k <;> exact ⟨rfl, by decide, by decide, by decide, by decide⟩

theorem natDigitsRev_lt : ∀ fuel n : Nat, ∀ d ∈ natDigitsRev fuel n, d < 10 := by
  intro fuel
  induction fuel with
  | zero => intro n d hd; cases hd
  | succ fuel ih =>
    intro n d hd
    by_cases h0 : n = 0
    · subst h0; simp [natDigitsRev] at hd
    · simp only [natDigitsRev, h0, if_false] at hd
      rcases List.mem_cons.mp hd with rfl | hmem
      · exact Nat.mod_lt n (by norm_num)
      · exact ih (n / 10) d hmem

theorem ofDigitsLE_append (l1 l2 : List Nat) :
    ofDigitsLE (l1 ++ l2) = ofDigitsLE l1 + 10 ^ l1.length * ofDigitsLE l2 := by
  induction l1 with
  | nil => simp [ofDigitsLE]
  | cons d rest ih =>
    show d + 10 * ofDigitsLE (rest ++ l2)
      = d + 10 * ofDigitsLE rest + 10 ^ (rest.length + 1) * ofDigitsLE l2
    rw [ih]
    ring

theorem ofDigitsLE_replicate_zero (n : Nat) :
    ofDigitsLE (List.replicate n 0) = 0 := by
  induction n with
  | zero => rfl
  | succ n ih => simp [List.replicate_succ, ofDigitsLE, ih]

theorem ofDigitsLE_natDigitsRev :
    ∀ fuel n : Nat, n ≤ fuel → ofDigitsLE (natDigitsRev fuel n) = n := by
  intro fuel
  induction fuel with
  | zero =>
    intro n h
    have h0 : n = 0 := by omega
    subst h0; rfl
  | succ fuel ih =>
    intro n h
    by_cases h0 : n = 0
    · subst h0; simp [natDigitsRev, ofDigitsLE]
    · have hdiv : n / 10 < n := Nat.div_lt_self (Nat.pos_of_ne_zero h0) (by norm_num)
      simp only [natDigitsRev, h0, if_false, ofDigitsLE]
      rw [ih (n / 10) (by omega)]
      exact Nat.mod_add_div n 10

theorem ofDigitsLE_natDigits (n : Nat) : ofDigitsLE (natDigits n) = n :=
  ofDigitsLE_natDigitsRev n n (le_refl n)

theorem parseDigits_map (ds : List Nat) (h : ∀ d ∈ ds, d < 10) :
    parseDigits (ds.map digitChar) = some ds := by
  induction ds with
  | nil => rfl
  | cons d rest ih =>
    have hd := (digitChar_props d (h d (List.mem_cons_self d rest))).1
    have hrest := ih (fun x hx => h x (List.mem_cons_of_mem d hx))
    simp [parseDigits, hd, hrest]

theorem splitOnChar_no_sep (sep : Char) (l : List Char) (h : sep ∉ l) :
    splitOnChar sep l = [l] := by
  induction l with
  | nil => rfl
  | cons c rest ih =>
    simp only [List.mem_cons, not_or] at h
    have hcs : ¬ c = sep := fun hh => h.1 hh.symm
    simp [splitOnChar, hcs, ih h.2]

theorem splitOnChar_append (sep : Char) (a rest : List Char) (h : sep ∉ a) :
    splitOnChar sep (a ++ sep :: rest) = a :: splitOnChar sep rest := by
  induction a with
  | nil => simp [splitOnChar]
  | cons c a2 ih =>
    simp only [List.mem_cons, not_or] at h
    have hcs : ¬ c = sep := fun hh => h.1 hh.symm
    show splitOnChar sep (c :: (a2 ++ sep :: rest)) = _
    simp only [splitOnChar]
    rw [if_neg hcs, ih h.2]

theorem splitOnChar_joinLines (ls : List (List Char))
    (h : ∀ l ∈ ls, '\n' ∉ l) :
    splitOnChar '\n' (joinLines ls) = ls ++ [[]] := by
  induction ls with
  | nil => rfl
  | cons a ls ih =>
    have hstep : joinLines (a :: ls) = a ++ '\n' :: joinLines ls := by
      simp [joinLines, List.append_assoc]
    rw [hstep, splitOnChar_append '\n' a _ (h a (List.mem_cons_self a ls)),
      ih (fun l hl => h l (List.mem_cons_of_mem a hl))]
    rfl

theorem parseDecCore_digits (ip fp : List Nat)
    (hip : ∀ k ∈ ip, k < 10) (hfp : ∀ k ∈ fp, k < 10) (hne : ip ≠ []) :
    parseDecCore (ip.map digitChar ++ '.' :: fp.map digitChar)
      = some ⟨(ofDigitsLE ((ip ++ fp).reverse) : Nat), fp.length⟩ := by
  have hdot_ip : '.' ∉ ip.map digitChar := by
    intro hmem
    obtain ⟨k, hk, hek⟩ := List.mem_map.mp hmem
    exact (digitChar_props k (hip k hk)).2.2.1 hek
  have hdot_fp : '.' ∉ fp.map digitChar := by
    intro hmem
    obtain ⟨k, hk, hek⟩ := List.mem_map.mp hmem
    exact (digitChar_props k (hfp k hk)).2.2.1 hek
  have hsplit : splitOnChar '.' (ip.map digitChar ++ '.' :: fp.map digitChar)
      = [ip.map digitChar, fp.map digitChar] := by
    rw [splitOnChar_append '.' _ _ hdot_ip, splitOnChar_no_sep '.' _ hdot_fp]
  have hipne : ip.map digitChar ≠ [] := by
    simpa [List.map_eq_nil_iff] using hne
  simp [parseDecCore, hsplit, hipne, parseDigits_map ip hip, parseDigits_map fp hfp]

theorem renderDec_parse_aux (m : Int) (e : Nat) (pad : List Nat)
    (hpad10 : ∀ k ∈ pad, k < 10)
    (hlen : e + 1 ≤ pad.length)
    (hval : ofDigitsLE pad = m.natAbs) :
    parseDec ((if m < 0 then ['-'] else []) ++
      ((pad.map digitChar).reverse.take ((pad.map digitChar).reverse.length - e) ++
        '.' :: (pad.map digitChar).reverse.drop ((pad.map digitChar).reverse.length - e)))
      = some ⟨m, e⟩ := by
  have hrev : (pad.map digitChar).reverse = pad.reverse.map digitChar :=
    (List.map_reverse digitChar pad).symm
  have hlenrev : (pad.map digitChar).reverse.length = pad.length := by simp
  have htake : (pad.map digitChar).reverse.take (pad.length - e)
      = (pad.reverse.take (pad.length - e)).map digitChar := by
    rw [hrev, List.map_take]
  have hdrop : (pad.map digitChar).reverse.drop (pad.length - e)
      = (pad.reverse.drop (pad.length - e)).map digitChar := by
    rw [hrev, List.map_drop]
  have hip : ∀ x ∈ pad.reverse.take (pad.length - e), x < 10 :=
    fun x hx => hpad10 x (List.mem_reverse.mp (List.take_subset _ _ hx))
  have hfp : ∀ x ∈ pad.reverse.drop (pad.length - e), x < 10 :=
    fun x hx => hpad10 x (List.mem_reverse.mp (List.drop_subset _ _ hx))
  have hiplen : (pad.reverse.take (pad.length - e)).length = pad.length - e := by
    rw [List.length_take, List.length_reverse]
    omega
  have hipne : pad.reverse.take (pad.length - e) ≠ [] := by
    intro h0
    rw [h0] at hiplen
    simp at hiplen
    omega
  have hfplen : (pad.reverse.drop (pad.length - e)).length = e := by
    rw [List.length_drop, List.length_reverse]
    omega
  have hcore := parseDecCore_digits _ _ hip hfp hipne
  rw [List.take_append_drop, List.reverse_reverse, hval, hfplen] at hcore
  rw [hlenrev, htake, hdrop]
  by_cases hm : m < 0
  · rw [if_pos hm, List.singleton_append]
    have hstep : parseDec ('-' :: ((pad.reverse.take (pad.length - e)).map digitChar ++
        '.' :: (pad.reverse.drop (pad.length - e)).map digitChar))
        = (parseDecCore ((pad.reverse.take (pad.length - e)).map digitChar ++
            '.' :: (pad.reverse.drop (pad.length - e)).map digitChar)).map
          (fun d => ⟨-d.m, d.e⟩) := rfl
    rw [hstep, hcore]
    have habs : (m.natAbs : Int) = -m := Int.ofNat_natAbs_of_nonpos (le_of_lt hm)
    simp [habs]
  · rw [if_neg hm]
    simp only [List.nil_append]
    cases hip0 : pad.reverse.take (pad.length - e) with
    | nil => exact absurd hip0 hipne
    | cons d0 ds =>
      rw [hip0] at hcore
      have hd0 : d0 < 10 := hip d0 (by rw [hip0]; exact List.mem_cons_self d0 ds)
      simp only [List.map_cons, List.cons_append] at hcore ⊢
      simp only [parseDec]
      rw [if_neg (digitChar_props d0 hd0).2.2.2.2, hcore]
      have habs : (m.natAbs : Int) = m := Int.natAbs_of_nonneg (not_lt.mp hm)
      rw [habs]

theorem renderDec_parse (d : DecNum) : parseDec (DecNum.render d) = some d := by
  obtain ⟨m, e⟩ := d
  have h10 : ∀ k ∈ natDigits m.natAbs ++
      List.replicate (e + 1 - (natDigits m.natAbs).length) 0, k < 10 := by
    intro k hk
    rcases List.mem_append.mp hk with h | h
    · exact natDigitsRev_lt _ _ k h
    · rw [List.eq_of_mem_replicate h]; norm_num
  have hlen : e + 1 ≤ (natDigits m.natAbs ++
      List.replicate (e + 1 - (natDigits m.natAbs).length) 0).length := by
    rw [List.length_append, List.length_replicate]
    omega
  have hval : ofDigitsLE (natDigits m.natAbs ++
      List.replicate (e + 1 - (natDigits m.natAbs).length) 0) = m.natAbs := by
    rw [ofDigitsLE_append, ofDigitsLE_replicate_zero, ofDigitsLE_natDigits]
    ring
  simpa [DecNum.render] using renderDec_parse_aux m e _ h10 hlen hval

theorem renderDec_chars (d : DecNum) :
    ∀ c ∈ DecNum.render d, c = '-' ∨ c = '.' ∨ ∃ k, k < 10 ∧ c = digitChar k := by
  obtain ⟨m, e⟩ := d
  have h10 : ∀ k ∈ natDigits m.natAbs ++
      List.replicate (e + 1 - (natDigits m.natAbs).length) 0, k < 10 := by
    intro k hk
    rcases List.mem_append.mp hk with h | h
    · exact natDigitsRev_lt _ _ k h
    · rw [List.eq_of_mem_replicate h]; norm_num
  intro c hc
  simp only [DecNum.render] at hc
  rcases List.mem_append.mp hc with h | h
  · by_cases hm : m < 0
    · rw [if_pos hm] at h
      simp only [List.mem_singleton] at h
      exact Or.inl h
    · rw [if_neg hm] at h
      cases h
  · rcases List.mem_append.mp h with h2 | h2
    · refine Or.inr (Or.inr ?_)
      have hmem := List.take_subset _ _ h2
      rw [List.mem_reverse] at hmem
      obtain ⟨k, hk, rfl⟩ := List.mem_map.mp hmem
      exact ⟨k, h10 k hk, rfl⟩
    · rcases List.mem_cons.mp h2 with h3 | h3
      · exact Or.inr (Or.inl h3)
      · refine Or.inr (Or.inr ?_)
        have hmem := List.drop_subset _ _ h3
        rw [List.mem_reverse] at hmem
        obtain ⟨k, hk, rfl⟩ := List.mem_map.mp hmem
        exact ⟨k, h10 k hk, rfl⟩

theorem renderDec_not_mem (d : DecNum) :
    ',' ∉ DecNum.render d ∧ '\n' ∉ DecNum.render d := by
  constructor
  · intro hmem
    rcases renderDec_chars d _ hmem with h | h | ⟨k, hk, h⟩
    · exact absurd h (by decide)
    · exact absurd h (by decide)
    · exact (digitChar_props k hk).2.1 h.symm
  · intro hmem
    rcases renderDec_chars d _ hmem with h | h | ⟨k, hk, h⟩
    · exact absurd h (by decide)
    · exact absurd h (by decide)
    · exact (digitChar_props k hk).2.2.2.1 h.symm

theorem renderEnvRow_no_newline (r : EnvRow)
    (h1 : '\n' ∉ r.time.data) (h2 : '\n' ∉ r.school.data) :
    '\n' ∉ renderEnvRow r := by
  intro hmem
  simp only [renderEnvRow, List.mem_append, List.mem_cons] at hmem
  rcases hmem with h | h | h | h | h | h | h | h | h | h | h
  · exact h1 h
  · exact absurd h (by decide)
  · exact (renderDec_not_mem r.temperature).2 h
  · exact absurd h (by decide)
  · exact (renderDec_not_mem r.humidity).2 h
  · exact absurd h (by decide)
  · exact (renderDec_not_mem r.ph).2 h
  · exact absurd h (by decide)
  · exact (renderDec_not_mem r.ec).2 h
  · exact absurd h (by decide)
  · exact h2 h

theorem parseEnvRow_render (r : EnvRow)
    (ht : ',' ∉ r.time.data) (hs : ',' ∉ r.school.data) :
    parseEnvRow (renderEnvRow r) = some r := by
  obtain ⟨t, ta, hu, phv, ecv, sc⟩ := r
  have hsplit : splitOnChar ',' (renderEnvRow ⟨t, ta, hu, phv, ecv, sc⟩)
      = [t.data, ta.render, hu.render, phv.render, ecv.render, sc.data] := by
    rw [renderEnvRow]
    rw [splitOnChar_append ',' _ _ ht,
      splitOnChar_append ',' _ _ (renderDec_not_mem ta).1,
      splitOnChar_append ',' _ _ (renderDec_not_mem hu).1,
      splitOnChar_append ',' _ _ (renderDec_not_mem phv).1,
      splitOnChar_append ',' _ _ (renderDec_not_mem ecv).1,
      splitOnChar_no_sep ',' _ hs]
  simp only [parseEnvRow, hsplit, renderDec_parse]

theorem parseRows_render (rows : List EnvRow)
    (h : ∀ r ∈ rows, ',' ∉ r.time.data ∧ ',' ∉ r.school.data) :
    parseRows (rows.map renderEnvRow ++ [[]]) = some rows := by
  induction rows with
  | nil => rfl
  | cons r rest ih =>
    have hne : renderEnvRow r ≠ [] := by simp [renderEnvRow]
    have hr := h r (List.mem_cons_self r rest)
    have hrest := ih (fun x hx => h x (List.mem_cons_of_mem r hx))
    simp [parseRows, hne, parseEnvRow_render r hr.1 hr.2, hrest]

/-- C8: exporting the concatenated environment table to delimited text and
re-parsing that text yields the in-memory table back exactly (for tables
whose text cells contain no delimiter characters, as the source data's
timestamps and school names do). -/
theorem env_csv_round_trip (rows : List EnvRow)
    (h : ∀ r ∈ rows, ',' ∉ r.time.data ∧ '\n' ∉ r.time.data ∧
      ',' ∉ r.school.data ∧ '\n' ∉ r.school.data) :
    parse_env_csv (env_to_csv rows) = some rows := by
  have hlines : ∀ l ∈ envHeader :: rows.map renderEnvRow, '\n' ∉ l := by
    intro l hl
    rcases List.mem_cons.mp hl with rfl | hl2
    · decide
    · obtain ⟨r, hr, rfl⟩ := List.mem_map.mp hl2
      exact renderEnvRow_no_newline r (h r hr).2.1 (h r hr).2.2.2
  have hsplit := splitOnChar_joinLines (envHeader :: rows.map renderEnvRow) hlines
  simp only [parse_env_csv, env_to_csv, hsplit, List.cons_append, if_pos]
  exact parseRows_render rows (fun r hr => ⟨(h r hr).1, (h r hr).2.2.1⟩)

/-- C8 witness: a concrete one-row environment table survives the
export/re-parse round trip unchanged. -/
theorem env_csv_round_trip_witness :
    parse_env_csv (env_to_csv
        [⟨"2024-01-01 00:00", ⟨215, 1⟩, ⟨60, 1⟩, ⟨65, 1⟩, ⟨12, 1⟩, "송도고"⟩])
      = some [⟨"2024-01-01 00:00", ⟨215, 1⟩, ⟨60, 1⟩, ⟨65, 1⟩, ⟨12, 1⟩, "송도고"⟩] :=
  env_csv_round_trip
    [⟨"2024-01-01 00:00", ⟨215, 1⟩, ⟨60, 1⟩, ⟨65, 1⟩, ⟨12, 1⟩, "송도고"⟩]
    (by decide)

end Dashboard
